import Mathlib

/-!
Verification of the concerto action-recognizer core (src/context.rs,
src/execution.rs, src/recipe.rs).  The Rust code is shallowly embedded:
the generic configuration types Target, KeyKind and Command become type
parameters T, K and C with decidable equality where the source demands
PartialEq/Ord; `usize` indices become Nat; the BTreeMap contract store
becomes an association list kept sorted by key; FixedBitSet becomes a
List Bool; panics and `unreachable!` branches are noted in comments and
given inert total behaviour, except the completes-without-input panic of
`start_execution_with_input`, which the claims are about and which is
modelled by an explicit `panicked` flag.
-/

namespace Concerto

/-- execution.rs `ExecutionContextResult`. -/
inductive ExecutionContextResult where
  | Done
  | Used
  | Ignore
  | Abort
deriving DecidableEq

/-- recipe.rs `ActionInput`. -/
inductive ActionInput (T K : Type) where
  | CursorCoordinate (t : T)
  | FocusCoordinate (t : T)
  | KeyDown (k : K)
  | KeyUp (k : K)
deriving DecidableEq

/-- recipe.rs `ActionCondition`. -/
inductive ActionCondition (K : Type) where
  | KeyPressed (k : K) (pressed : Bool)
deriving DecidableEq

/-- execution.rs `ActionExecutionContract`. -/
inductive ActionExecutionContract (T K C : Type) where
  | Input (i : ActionInput T K)
  | Condition (c : ActionCondition K)
  | Effect (endCmd : C)
  | NestRecipe (n : Nat)
  | NestRecipeDisable (n : Nat)
deriving DecidableEq

/-- execution.rs `ActionExecutionContractStore`: a BTreeMap keyed by item
index, embedded as an association list kept sorted (strictly ascending)
by key, so that iteration order matches the BTreeMap's. -/
abbrev ContractStore (T K C : Type) := List (Nat × ActionExecutionContract T K C)

/-- recipe.rs `ActionNestRecipeCommand`. -/
inductive ActionNestRecipeCommand where
  | Enable (parent nested : Nat)
  | Disable (parent nested : Nat)
  | Abort (parent nested : Nat)
deriving DecidableEq

/-- recipe.rs `ActionRecipeItem`.  The `Of` generators receive the
contract store, which is all the source's `ActionRecipeExecutionInfo`
wraps. -/
inductive ActionRecipeItem (T K C : Type) where
  | StartInput (i : ActionInput T K)
  | StartFilteredInput (f : ActionInput T K → ExecutionContextResult)
  | StartCondition (c : ActionCondition K)
  | StartEffect (startCmd endCmd : C)
  | StartEffectOf (g : ContractStore T K C → C × C)
  | StartNestRecipe (n : Nat)
  | DisableNestRecipe (n : Nat)
  | EliminateItem (target : Nat)
  | DoCommand (cmd : C)
  | DoCommandOf (g : ContractStore T K C → C)
  | Sequential (children : List Nat)
  | Unordered (children : List Nat)
  | Choice (children : List Nat)

/-- recipe.rs `ActionRecipe` (the phantom type parameter is dropped). -/
structure ActionRecipe where
  rootItem : Nat
  isNested : Bool
  isEnabled : Bool
  nestRecipes : List Nat
deriving DecidableEq

/-- execution.rs `ActionExecutionFrame`; the FixedBitSet of an Unordered
frame becomes a list of Bools (true = child still pending). -/
inductive ActionExecutionFrame where
  | Sequential (pos : Option Nat)
  | Unordered (pending : List Bool)
  | Choice (chosen : Option Nat)
deriving DecidableEq

/-- execution.rs `ActionExecutionCtx`.  The head of `backtrace` is the
top of the SmallVec stack. -/
structure ActionExecutionCtx (T K C : Type) where
  recipeIdx : Nat
  backtrace : List (Nat × ActionExecutionFrame)
  storedContracts : ContractStore T K C
deriving DecidableEq

/-- One slot of the dispatcher's recipe vector. -/
abbrev RecipeSlot (T K C : Type) := ActionRecipe × Option (ActionExecutionCtx T K C)

/-- context.rs `ActionContext`; the environment tracker's BTreeSet is a
duplicate-free list of keys. -/
structure ActionContext (T K C : Type) where
  recipeItems : List (ActionRecipeItem T K C)
  recipes : List (RecipeSlot T K C)
  commandList : List C
  env : List K

section Core

variable {T K C : Type}

/-- Placeholder returned on an out-of-bounds item-store access, which the
source treats as a fatal bug (`expect` panic).  `Choice []` is inert. -/
def junkActionItem : ActionRecipeItem T K C := .Choice []

/-- context.rs `ActionRecipeItemStore::get` (out of bounds: see
`junkActionItem`). -/
def getItem (items : List (ActionRecipeItem T K C)) (idx : Nat) :
    ActionRecipeItem T K C :=
  items.getD idx junkActionItem

/-- recipe.rs `ActionRecipeItem::is_interactive`. -/
def ActionRecipeItem.isInteractive : ActionRecipeItem T K C → Bool
  | .StartInput _ => true
  | .StartFilteredInput _ => true
  | _ => false

/-- recipe.rs `ActionRecipeItem::is_condition`. -/
def ActionRecipeItem.isCondition : ActionRecipeItem T K C → Bool
  | .StartCondition _ => true
  | _ => false

/-- recipe.rs `ActionRecipeItem::is_noninteractive`. -/
def ActionRecipeItem.isNoninteractive : ActionRecipeItem T K C → Bool
  | .EliminateItem _ => true
  | .DoCommand _ => true
  | .DoCommandOf _ => true
  | .StartEffect _ _ => true
  | .StartEffectOf _ => true
  | .StartNestRecipe _ => true
  | .DisableNestRecipe _ => true
  | _ => false

/-- recipe.rs `ActionRecipeItem::is_compound`. -/
def ActionRecipeItem.isCompound : ActionRecipeItem T K C → Bool
  | .Sequential _ => true
  | .Unordered _ => true
  | .Choice _ => true
  | _ => false

/-- recipe.rs `ActionRecipeItem::compound_sequence` (non-compound:
source `unreachable!`, here the empty sequence). -/
def ActionRecipeItem.compoundSequence : ActionRecipeItem T K C → List Nat
  | .Sequential s => s
  | .Unordered s => s
  | .Choice s => s
  | _ => []

/-- BTreeMap::insert on the sorted association list (replaces an
existing binding for the key). -/
def insertContract (k : Nat) (c : ActionExecutionContract T K C) :
    ContractStore T K C → ContractStore T K C
  | [] => [(k, c)]
  | (k', c') :: rest =>
    if k < k' then (k, c) :: (k', c') :: rest
    else if k = k' then (k, c) :: rest
    else (k', c') :: insertContract k c rest

/-- BTreeMap::remove: the removed binding, if any, and the remaining
store. -/
def removeContract (k : Nat) :
    ContractStore T K C →
    Option (ActionExecutionContract T K C) × ContractStore T K C
  | [] => (none, [])
  | (k', c') :: rest =>
    if k = k' then (some c', rest)
    else
      let (o, r) := removeContract k rest
      (o, (k', c') :: r)

/-- Whether the store holds a binding for the key. -/
def containsContract (k : Nat) (s : ContractStore T K C) : Bool :=
  s.any fun p => p.1 = k

/-- Environment tracker: BTreeSet::insert. -/
def envInsert [DecidableEq K] (s : List K) (k : K) : List K :=
  if k ∈ s then s else k :: s

/-- Environment tracker: BTreeSet::remove. -/
def envRemove [DecidableEq K] : List K → K → List K
  | [], _ => []
  | x :: rest, k => if x = k then rest else x :: envRemove rest k

/-- context.rs `ActionEnvironmentTrackingState::is_key_pressed`. -/
def isKeyPressed [DecidableEq K] (s : List K) (k : K) : Bool :=
  decide (k ∈ s)

/-- context.rs `ActionEnvironmentTrackingState::update_with_input`. -/
def updateWithInput [DecidableEq K] (s : List K) :
    ActionInput T K → List K
  | .KeyDown k => envInsert s k
  | .KeyUp k => envRemove s k
  | _ => s

/-- execution.rs `ActionExecutionCtx::check_input_match_input`. -/
def checkInputMatchInput [DecidableEq T] [DecidableEq K]
    (expected input : ActionInput T K) : ExecutionContextResult :=
  match expected, input with
  | .CursorCoordinate v1, .CursorCoordinate v2 =>
    if v1 = v2 then .Used else .Abort
  | .CursorCoordinate _, _ => .Ignore
  | .FocusCoordinate v1, .FocusCoordinate v2 =>
    if v1 = v2 then .Used else .Abort
  | .FocusCoordinate _, _ => .Ignore
  | .KeyDown v1, .KeyDown v2 => if v1 = v2 then .Used else .Ignore
  | .KeyDown v1, .KeyUp v2 => if v1 = v2 then .Abort else .Ignore
  | .KeyDown _, _ => .Ignore
  | .KeyUp v1, .KeyUp v2 => if v1 = v2 then .Used else .Ignore
  | .KeyUp v1, .KeyDown v2 => if v1 = v2 then .Abort else .Ignore
  | .KeyUp _, _ => .Ignore

/-- execution.rs `ActionExecutionCtx::check_input_match_condition`. -/
def checkInputMatchCondition [DecidableEq K] (condition : ActionCondition K)
    (input : ActionInput T K) : ExecutionContextResult :=
  match condition, input with
  | .KeyPressed bk false, .KeyDown k => if bk = k then .Abort else .Ignore
  | .KeyPressed bk true, .KeyUp k => if bk = k then .Abort else .Ignore
  | _, _ => .Ignore

/-- execution.rs `ActionExecutionCtx::stored_contracts_conflict`. -/
def storedContractsConflict [DecidableEq T] [DecidableEq K]
    (input : ActionInput T K) (s : ContractStore T K C) : Bool :=
  s.any fun p =>
    match p.2 with
    | .Input expected => checkInputMatchInput expected input = .Abort
    | .Condition c => checkInputMatchCondition c input = .Abort
    | _ => false

/-- execution.rs `check_interactive_item_match_input` (non-interactive
item: source `unreachable!`, here Ignore). -/
def checkInteractiveItemMatchInput [DecidableEq T] [DecidableEq K]
    (item : ActionRecipeItem T K C) (input : ActionInput T K) :
    ExecutionContextResult :=
  match item with
  | .StartInput expected => checkInputMatchInput expected input
  | .StartFilteredInput f => f input
  | _ => .Ignore

/-- execution.rs `check_condition_match_environment`. -/
def checkConditionMatchEnvironment [DecidableEq K]
    (condition : ActionCondition K) (env : List K) : Bool :=
  match condition with
  | .KeyPressed k s => isKeyPressed env k = s

/-- execution.rs `check_condition_item_match_environment`: on success the
condition contract is recorded (non-condition item: source
`unreachable!`, here Used with the store unchanged). -/
def checkConditionItemMatchEnvironment [DecidableEq K]
    (itemIdx : Nat) (item : ActionRecipeItem T K C)
    (store : ContractStore T K C) (env : List K) :
    ExecutionContextResult × ContractStore T K C :=
  match item with
  | .StartCondition c =>
    if checkConditionMatchEnvironment c env then
      (.Used, insertContract itemIdx (.Condition c) store)
    else (.Abort, store)
  | _ => (.Used, store)

/-- execution.rs `ActionRecipeExecutionInfo::cursor_coordinate`: the
first cursor-coordinate input contract in key order. -/
def cursorCoordinate : ContractStore T K C → Option T
  | [] => none
  | (_, .Input (.CursorCoordinate t)) :: _ => some t
  | _ :: rest => cursorCoordinate rest

/-- execution.rs `internal_eliminate_contract`: returns the updated
command list, the updated nest-recipe request list, and whether a
command was pushed. -/
def internalEliminateContract (recipeId : Nat)
    (contract : ActionExecutionContract T K C) (cmds : List C)
    (nest : List ActionNestRecipeCommand) :
    List C × List ActionNestRecipeCommand × Bool :=
  match contract with
  | .Effect e => (cmds ++ [e], nest, true)
  | .NestRecipe n => (cmds, nest ++ [.Abort recipeId n], false)
  | .NestRecipeDisable n => (cmds, nest ++ [.Enable recipeId n], false)
  | _ => (cmds, nest, false)

/-- execution.rs `ActionExecutionContractStore::eliminate`. -/
def eliminate (recipeId : Nat) (item : Nat) (store : ContractStore T K C)
    (cmds : List C) (nest : List ActionNestRecipeCommand) :
    Bool × ContractStore T K C × List C × List ActionNestRecipeCommand :=
  match removeContract item store with
  | (some contract, store') =>
    let (cmds', nest', b) := internalEliminateContract recipeId contract cmds nest
    (b, store', cmds', nest')
  | (none, store') => (false, store', cmds, nest)

/-- The loop body of `ActionExecutionContractStore::eliminate_all`,
walking the bindings in key order. -/
def eliminateList (recipeId : Nat) :
    ContractStore T K C → List C → List ActionNestRecipeCommand →
    Bool × List C × List ActionNestRecipeCommand
  | [], cmds, nest => (false, cmds, nest)
  | (_, contract) :: rest, cmds, nest =>
    let (cmds', nest', b) := internalEliminateContract recipeId contract cmds nest
    let (b', cmds'', nest'') := eliminateList recipeId rest cmds' nest'
    (b || b', cmds'', nest'')

/-- Result of execution.rs `ActionExecutionCtx::clean_up`: whether any
command was emitted, plus the updated command and request lists. -/
structure CleanOut (C : Type) where
  emitted : Bool
  cmds : List C
  nest : List ActionNestRecipeCommand
deriving DecidableEq

/-- execution.rs `ActionExecutionCtx::clean_up` (via `eliminate_all`):
retires every stored contract (the context is dropped by every
caller, so the emptied store is not returned). -/
def cleanUp (ctx : ActionExecutionCtx T K C) (cmds : List C)
    (nest : List ActionNestRecipeCommand) : CleanOut C :=
  let r := eliminateList ctx.recipeIdx ctx.storedContracts cmds nest
  { emitted := r.1, cmds := r.2.1, nest := r.2.2 }

/-- execution.rs `put_noninteractive_item_into_effect` (non-matching
item: source `unreachable!`, here a no-op). -/
def putNoninteractiveItemIntoEffect (recipeId itemIdx : Nat)
    (item : ActionRecipeItem T K C) (cmds : List C)
    (nest : List ActionNestRecipeCommand) (store : ContractStore T K C) :
    List C × List ActionNestRecipeCommand × ContractStore T K C :=
  match item with
  | .EliminateItem target =>
    let (_, store', cmds', nest') := eliminate recipeId target store cmds nest
    (cmds', nest', store')
  | .StartEffect s e =>
    (cmds ++ [s], nest, insertContract itemIdx (.Effect e) store)
  | .StartEffectOf g =>
    let (s, e) := g store
    (cmds ++ [s], nest, insertContract itemIdx (.Effect e) store)
  | .StartNestRecipe n =>
    (cmds, nest ++ [.Enable recipeId n], insertContract itemIdx (.NestRecipe n) store)
  | .DisableNestRecipe n =>
    (cmds, nest ++ [.Disable recipeId n], insertContract itemIdx (.NestRecipeDisable n) store)
  | .DoCommand c => (cmds ++ [c], nest, store)
  | .DoCommandOf g => (cmds ++ [g store], nest, store)
  | _ => (cmds, nest, store)

/-- execution.rs `prepare_new_frame_for_compound_item` (non-compound
item: source panics, here an inert Sequential frame). -/
def prepareNewFrame (item : ActionRecipeItem T K C) (itemIdx : Nat) :
    Nat × ActionExecutionFrame :=
  match item with
  | .Sequential _ => (itemIdx, .Sequential none)
  | .Unordered r => (itemIdx, .Unordered (List.replicate r.length true))
  | .Choice _ => (itemIdx, .Choice none)
  | _ => (itemIdx, .Sequential none)

/-- execution.rs `ActionExecutionCtx::new`: fresh context with the
recipe's root compound frame pre-pushed. -/
def freshExecutionCtx (items : List (ActionRecipeItem T K C))
    (recipe : ActionRecipe) (recipeIdx : Nat) : ActionExecutionCtx T K C :=
  { recipeIdx
    backtrace := [prepareNewFrame (getItem items recipe.rootItem) recipe.rootItem],
    storedContracts := [] }

/-- Scan candidate child positions in order for the first child whose
match is not Ignore: the position, the child's item index, and whether
the outcome is Used (true) or Abort (false).  Used by the Unordered and
Choice arms of phase 1.  A Done from an embedder filter would be
`unreachable!` in the source; here it is skipped like Ignore. -/
def scanFirstMatch [DecidableEq T] [DecidableEq K]
    (items : List (ActionRecipeItem T K C)) (input : ActionInput T K)
    (children : List Nat) : List Nat → Option (Nat × Nat × Bool)
  | [] => none
  | p :: rest =>
    match children[p]? with
    | none => scanFirstMatch items input children rest
    | some childIdx =>
      match checkInteractiveItemMatchInput (getItem items childIdx) input with
      | .Used => some (p, childIdx, true)
      | .Abort => some (p, childIdx, false)
      | _ => scanFirstMatch items input children rest

/-- execution.rs `ActionExecutionCtx::process_input_1` (phase 1: consume
the input).  An empty backtrace would be a broken-context panic in the
source; here Abort. -/
def processInput1 [DecidableEq T] [DecidableEq K]
    (input : ActionInput T K) (items : List (ActionRecipeItem T K C))
    (ctx : ActionExecutionCtx T K C) :
    ExecutionContextResult × ActionExecutionCtx T K C :=
  if storedContractsConflict input ctx.storedContracts then (.Abort, ctx)
  else
    match ctx.backtrace with
    | [] => (.Abort, ctx)
    | (itemIdx, frame) :: restBt =>
      let children := (getItem items itemIdx).compoundSequence
      match frame with
      | .Sequential pos =>
        let next := match pos with | some x => x + 1 | none => 0
        match children[next]? with
        | none => (.Ignore, ctx)
        | some childIdx =>
          match checkInteractiveItemMatchInput (getItem items childIdx) input with
          | .Used =>
            (.Used,
              { ctx with
                storedContracts :=
                  insertContract childIdx (.Input input) ctx.storedContracts
                backtrace := (itemIdx, .Sequential (some next)) :: restBt })
          | .Abort => (.Abort, ctx)
          | _ => (.Ignore, ctx)
      | .Unordered pending =>
        let positions :=
          (List.range children.length).filter fun i => pending.getD i false
        match scanFirstMatch items input children positions with
        | some (p, childIdx, true) =>
          (.Used,
            { ctx with
              storedContracts :=
                insertContract childIdx (.Input input) ctx.storedContracts
              backtrace := (itemIdx, .Unordered (pending.set p false)) :: restBt })
        | some (_, _, false) => (.Abort, ctx)
        | none => (.Ignore, ctx)
      | .Choice _ =>
        match scanFirstMatch items input children (List.range children.length) with
        | some (p, childIdx, true) =>
          (.Used,
            { ctx with
              storedContracts :=
                insertContract childIdx (.Input input) ctx.storedContracts
              backtrace := (itemIdx, .Choice (some p)) :: restBt })
        | some (_, _, false) => (.Abort, ctx)
        | none => (.Ignore, ctx)

/-- Outcome of the inner `sequential_loop` of phase 2. -/
inductive SeqOut where
  | stopUsed
  | aborted
  | exhausted
  | pushFrame (f : Nat × ActionExecutionFrame)

/-- The inner `sequential_loop` of execution.rs `process_input_2`:
walks the remaining children of a Sequential frame (starting at
position `next`), applying conditions and non-interactive items, until
it reaches an interactive child, aborts, exhausts the frame, or meets a
compound child to push. -/
def seqAdvance [DecidableEq K] (recipeId : Nat)
    (items : List (ActionRecipeItem T K C)) (env : List K) :
    List Nat → Nat → Option Nat → ContractStore T K C → List C →
    List ActionNestRecipeCommand →
    SeqOut × Option Nat × ContractStore T K C × List C ×
      List ActionNestRecipeCommand
  | [], _, pos, store, cmds, nest => (.exhausted, pos, store, cmds, nest)
  | childIdx :: rest, next, pos, store, cmds, nest =>
    let item := getItem items childIdx
    if item.isInteractive then (.stopUsed, pos, store, cmds, nest)
    else if item.isCondition then
      match checkConditionItemMatchEnvironment childIdx item store env with
      | (.Abort, store') => (.aborted, pos, store', cmds, nest)
      | (_, store') =>
        seqAdvance recipeId items env rest (next + 1) (some next) store' cmds nest
    else if item.isNoninteractive then
      let (cmds', nest', store') :=
        putNoninteractiveItemIntoEffect recipeId childIdx item cmds nest store
      seqAdvance recipeId items env rest (next + 1) (some next) store' cmds' nest'
    else
      (.pushFrame (prepareNewFrame item childIdx), some next, store, cmds, nest)

/-- Fuel for the outer `frame_loop` of phase 2.  On a tree-shaped item
store the loop pushes and pops each compound at most once, so this
bound is never reached; the fuel only totalizes the model on cyclic
stores, on which the source would not terminate. -/
def phase2Fuel (items : List (ActionRecipeItem T K C)) : Nat :=
  2 * items.length + 2

/-- Result of one execution-context step: the outcome plus the updated
context, command list and nest-recipe request list. -/
structure StepOut (T K C : Type) where
  result : ExecutionContextResult
  ctx : ActionExecutionCtx T K C
  cmds : List C
  nest : List ActionNestRecipeCommand
deriving DecidableEq

/-- execution.rs `ActionExecutionCtx::process_input_2` (phase 2:
advance through non-input items), with explicit fuel for the outer
frame loop. -/
def processInput2 [DecidableEq K]
    (items : List (ActionRecipeItem T K C)) (env : List K) :
    Nat → ActionExecutionCtx T K C → List C → List ActionNestRecipeCommand →
    StepOut T K C
  | 0, ctx, cmds, nest => ⟨.Ignore, ctx, cmds, nest⟩
  | fuel + 1, ctx, cmds, nest =>
    match ctx.backtrace with
    | [] => ⟨.Done, ctx, cmds, nest⟩
    | (itemIdx, frame) :: restBt =>
      match frame with
      | .Sequential pos =>
        let children := (getItem items itemIdx).compoundSequence
        let next := match pos with | some x => x + 1 | none => 0
        match seqAdvance ctx.recipeIdx items env (children.drop next) next pos
            ctx.storedContracts cmds nest with
        | (.stopUsed, pos', store', cmds', nest') =>
          ⟨.Used,
            { ctx with
              backtrace := (itemIdx, .Sequential pos') :: restBt,
              storedContracts := store' }, cmds', nest'⟩
        | (.aborted, pos', store', cmds', nest') =>
          ⟨.Abort,
            { ctx with
              backtrace := (itemIdx, .Sequential pos') :: restBt,
              storedContracts := store' }, cmds', nest'⟩
        | (.exhausted, _, store', cmds', nest') =>
          processInput2 items env fuel
            { ctx with backtrace := restBt, storedContracts := store' }
            cmds' nest'
        | (.pushFrame f, pos', store', cmds', nest') =>
          processInput2 items env fuel
            { ctx with
              backtrace := f :: (itemIdx, .Sequential pos') :: restBt,
              storedContracts := store' }
            cmds' nest'
      | .Unordered pending =>
        if pending.any (fun b => b) then ⟨.Used, ctx, cmds, nest⟩
        else
          processInput2 items env fuel { ctx with backtrace := restBt } cmds nest
      | .Choice chosen =>
        match chosen with
        | none => ⟨.Used, ctx, cmds, nest⟩
        | some _ =>
          processInput2 items env fuel { ctx with backtrace := restBt } cmds nest

/-- execution.rs `ActionExecutionCtx::process_input`: phase 1 then, on
Used, phase 2 (a Done from phase 1 would be `unreachable!`; phase 1
never produces it here). -/
def ctxProcessInput [DecidableEq T] [DecidableEq K]
    (input : ActionInput T K) (items : List (ActionRecipeItem T K C))
    (env : List K) (ctx : ActionExecutionCtx T K C) (cmds : List C)
    (nest : List ActionNestRecipeCommand) : StepOut T K C :=
  match processInput1 input items ctx with
  | (.Used, ctx') => processInput2 items env (phase2Fuel items) ctx' cmds nest
  | (.Ignore, ctx') => ⟨.Ignore, ctx', cmds, nest⟩
  | (.Abort, ctx') => ⟨.Abort, ctx', cmds, nest⟩
  | (.Done, ctx') => ⟨.Ignore, ctx', cmds, nest⟩

/-- Result of execution.rs `start_execution_with_input`.  `panicked`
records the source panic on a recipe that completes itself without
any input (the source aborts there; the model flags it and yields the
non-starting outcome). -/
structure StartOut (T K C : Type) where
  result : ExecutionContextResult
  newCtx : Option (ActionExecutionCtx T K C)
  cmds : List C
  nest : List ActionNestRecipeCommand
  panicked : Bool
deriving DecidableEq

/-- execution.rs `ActionExecutionCtx::start_execution_with_input`.
Note: the initial phase-2 pass and the subsequent `process_input` push
commands directly onto the shared command list, but the nest-recipe
requests go to a local buffer that reaches the caller's list only when
the overall outcome is Used. -/
def startExecutionWithInput [DecidableEq T] [DecidableEq K]
    (input : ActionInput T K) (items : List (ActionRecipeItem T K C))
    (recipe : ActionRecipe) (recipeIdx : Nat) (cmds : List C)
    (nest : List ActionNestRecipeCommand) (env : List K) :
    StartOut T K C :=
  let ctx0 := freshExecutionCtx items recipe recipeIdx
  let p1 := processInput2 items env (phase2Fuel items) ctx0 cmds []
  match p1.result with
  | .Done =>
    { result := .Ignore, newCtx := none, cmds := p1.cmds, nest := nest,
      panicked := true }
  | .Used =>
    let p2 := ctxProcessInput input items env p1.ctx p1.cmds p1.nest
    match p2.result with
    | .Done =>
      { result := .Done, newCtx := none, cmds := p2.cmds, nest := nest,
        panicked := false }
    | .Used =>
      { result := .Used, newCtx := some p2.ctx, cmds := p2.cmds,
        nest := nest ++ p2.nest, panicked := false }
    | _ =>
      { result := .Ignore, newCtx := none, cmds := p2.cmds, nest := nest,
        panicked := false }
  | _ =>
    { result := .Ignore, newCtx := none, cmds := p1.cmds, nest := nest,
      panicked := false }

/-- Accumulator threaded through the stages of context.rs
`ActionContext::process_input`: the shared command list, the temporary
nest-recipe request list, and the `some_recipe_finished` and
`some_effect_occurred` flags.  `used` and `cle` instrument the two
kinds of site that set `some_effect_occurred` in the source: a context
consuming the input (Used), and a clean-up that emitted a command. -/
structure StageAcc (C : Type) where
  cmds : List C
  nest : List ActionNestRecipeCommand
  finished : Bool
  effect : Bool
  used : Bool
  cle : Bool
deriving DecidableEq

/-- The body of one `'step_1` iteration of context.rs `process_input`:
advance one recipe's context (if any) and fold the outcome into the
accumulator. -/
def stage1One [DecidableEq T] [DecidableEq K]
    (input : ActionInput T K) (items : List (ActionRecipeItem T K C))
    (env : List K) (slot : RecipeSlot T K C) (acc : StageAcc C) :
    RecipeSlot T K C × StageAcc C :=
  match slot.2 with
  | none => ((slot.1, none), acc)
  | some ctx =>
    let r := ctxProcessInput input items env ctx acc.cmds acc.nest
    match r.result with
    | .Done =>
      let cl := cleanUp r.ctx r.cmds r.nest
      ((slot.1, none),
        { acc with
          cmds := cl.cmds,
          nest := cl.nest,
          finished := true,
          effect := acc.effect || cl.emitted,
          cle := acc.cle || cl.emitted })
    | .Used =>
      ((slot.1, some r.ctx),
        { acc with
          cmds := r.cmds,
          nest := r.nest,
          effect := true,
          used := true })
    | .Ignore => ((slot.1, some r.ctx), { acc with cmds := r.cmds, nest := r.nest })
    | .Abort =>
      let cl := cleanUp r.ctx r.cmds r.nest
      ((slot.1, none),
        { acc with
          cmds := cl.cmds,
          nest := cl.nest,
          effect := acc.effect || cl.emitted,
          cle := acc.cle || cl.emitted })

/-- Stage 2 of context.rs `process_input` (the `'step_1` loop): advance
every active execution context in recipe order. -/
def stage1Go [DecidableEq T] [DecidableEq K]
    (input : ActionInput T K) (items : List (ActionRecipeItem T K C))
    (env : List K) :
    List (RecipeSlot T K C) → StageAcc C →
    List (RecipeSlot T K C) × StageAcc C
  | [], acc => ([], acc)
  | slot :: rest, acc =>
    let sa := stage1One input items env slot acc
    let ra := stage1Go input items env rest sa.2
    (sa.1 :: ra.1, ra.2)

/-- Stage 3 of context.rs `process_input` (both finalization blocks):
clean up every remaining context, drop all contexts, and reset
`is_enabled` to the negation of `is_nested`. -/
def finalizeAll :
    List (RecipeSlot T K C) → StageAcc C →
    List (RecipeSlot T K C) × StageAcc C
  | [], acc => ([], acc)
  | slot :: rest, acc =>
    let acc' :=
      match slot.2 with
      | none => acc
      | some ctx =>
        let cl := cleanUp ctx acc.cmds acc.nest
        { acc with
          cmds := cl.cmds,
          nest := cl.nest,
          effect := acc.effect || cl.emitted,
          cle := acc.cle || cl.emitted }
    let ra := finalizeAll rest acc'
    (({ slot.1 with isEnabled := !slot.1.isNested }, none) :: ra.1, ra.2)

/-- Stage 4 of context.rs `process_input` (the `'step_2` loop): try to
start a new match for every enabled recipe without an active context,
in recipe order, stopping at the first immediate completion (the
source breaks out of the loop there). -/
def stage4Go [DecidableEq T] [DecidableEq K]
    (input : ActionInput T K) (items : List (ActionRecipeItem T K C))
    (env : List K) :
    Nat → List (RecipeSlot T K C) → StageAcc C →
    List (RecipeSlot T K C) × StageAcc C
  | _, [], acc => ([], acc)
  | i, slot :: rest, acc =>
    if !slot.1.isEnabled || slot.2.isSome then
      let ra := stage4Go input items env (i + 1) rest acc
      (slot :: ra.1, ra.2)
    else
      let so := startExecutionWithInput input items slot.1 i acc.cmds acc.nest env
      match so.result with
      | .Done =>
        (slot :: rest,
          { acc with cmds := so.cmds, nest := so.nest, finished := true })
      | .Used =>
        let ra := stage4Go input items env (i + 1) rest
          { acc with
            cmds := so.cmds,
            nest := so.nest,
            effect := true,
            used := true }
        ((slot.1, so.newCtx) :: ra.1, ra.2)
      | _ =>
        let ra := stage4Go input items env (i + 1) rest
          { acc with cmds := so.cmds, nest := so.nest }
        (slot :: ra.1, ra.2)

/-- context.rs `ActionContext::locate_nest_recipe`. -/
def locateNestRecipe (slots : List (RecipeSlot T K C)) (p n : Nat) :
    Option Nat :=
  match slots[p]? with
  | some (recipe, _) => recipe.nestRecipes[n]?
  | none => none

/-- Set the `is_enabled` flag of the recipe at the given index. -/
def setEnabled (slots : List (RecipeSlot T K C)) (i : Nat) (b : Bool) :
    List (RecipeSlot T K C) :=
  match slots[i]? with
  | some (recipe, octx) => slots.set i ({ recipe with isEnabled := b }, octx)
  | none => slots

/-- One iteration of the stage-5 drain of context.rs `process_input`:
apply a single nest-recipe request, returning the requests newly
generated by an Abort clean-up (they join the next batch). -/
def applyOneReq [DecidableEq T] [DecidableEq K]
    (slots : List (RecipeSlot T K C)) (acc : StageAcc C) :
    ActionNestRecipeCommand →
    List (RecipeSlot T K C) × StageAcc C × List ActionNestRecipeCommand
  | .Enable p n =>
    match locateNestRecipe slots p n with
    | some ri => (setEnabled slots ri true, acc, [])
    | none => (slots, acc, [])
  | .Disable p n =>
    match locateNestRecipe slots p n with
    | some ri => (setEnabled slots ri false, acc, [])
    | none => (slots, acc, [])
  | .Abort p n =>
    match locateNestRecipe slots p n with
    | none => (slots, acc, [])
    | some ri =>
      let slots1 := setEnabled slots ri false
      match slots1[ri]? with
      | some (recipe, some ctx) =>
        let cl := cleanUp ctx acc.cmds []
        (slots1.set ri (recipe, none),
          { acc with
            cmds := cl.cmds,
            effect := acc.effect || cl.emitted,
            cle := acc.cle || cl.emitted },
          cl.nest)
      | _ => (slots1, acc, [])

/-- One batch of the stage-5 drain (the `for` over the drained list):
apply every queued request, concatenating the newly generated ones. -/
def drainBatch [DecidableEq T] [DecidableEq K]
    (slots : List (RecipeSlot T K C)) (acc : StageAcc C) :
    List ActionNestRecipeCommand →
    List (RecipeSlot T K C) × StageAcc C × List ActionNestRecipeCommand
  | [] => (slots, acc, [])
  | req :: rest =>
    let r1 := applyOneReq slots acc req
    let r2 := drainBatch r1.1 r1.2.1 rest
    (r2.1, r2.2.1, r1.2.2 ++ r2.2.2)

/-- Number of slots holding an active execution context. -/
def countSome (slots : List (RecipeSlot T K C)) : Nat :=
  slots.countP fun p => p.2.isSome

/-- The stage-5 `while` loop of context.rs `process_input`: run batches
until the queue is empty.  A batch generates new requests only by
cleaning up a context, which strictly decreases `countSome`, so fuel
`countSome + 1` always reaches the empty queue (proved with claim C4);
leftover requests are returned so the fuel bound is observable. -/
def drainRounds [DecidableEq T] [DecidableEq K] :
    Nat → List (RecipeSlot T K C) → StageAcc C →
    List ActionNestRecipeCommand →
    List (RecipeSlot T K C) × StageAcc C × List ActionNestRecipeCommand
  | 0, slots, acc, queue => (slots, acc, queue)
  | _ + 1, slots, acc, [] => (slots, acc, [])
  | fuel + 1, slots, acc, req :: rest =>
    let r := drainBatch slots acc (req :: rest)
    drainRounds fuel r.1 r.2.1 r.2.2

/-- Instrumented result of context.rs `ActionContext::process_input`.
`ret` is the returned Bool; `finished` is `some_recipe_finished` at
return; `used` and `cle` decompose `some_effect_occurred` (input
consumed by some context / some clean-up emitted a command); `dropped`
holds the nest-recipe requests still pending when the call returned
(the source discards them on the finalization short-circuit). -/
structure ProcessEv (T K C : Type) where
  state : ActionContext T K C
  ret : Bool
  finished : Bool
  used : Bool
  cle : Bool
  dropped : List ActionNestRecipeCommand

/-- context.rs `ActionContext::process_input`, instrumented. -/
def processInputEv [DecidableEq T] [DecidableEq K]
    (s : ActionContext T K C) (input : ActionInput T K) : ProcessEv T K C :=
  let env' := updateWithInput s.env input
  let acc0 : StageAcc C :=
    { cmds := s.commandList, nest := [], finished := false, effect := false,
      used := false, cle := false }
  let r1 := stage1Go input s.recipeItems env' s.recipes acc0
  if r1.2.finished then
    let rf := finalizeAll r1.1 r1.2
    { state := { recipeItems := s.recipeItems, recipes := rf.1,
                 commandList := rf.2.cmds, env := env' },
      ret := true, finished := true, used := rf.2.used, cle := rf.2.cle,
      dropped := rf.2.nest }
  else
    let r2 := stage4Go input s.recipeItems env' 0 r1.1 r1.2
    if r2.2.finished then
      let rf := finalizeAll r2.1 r2.2
      { state := { recipeItems := s.recipeItems, recipes := rf.1,
                   commandList := rf.2.cmds, env := env' },
        ret := true, finished := true, used := rf.2.used, cle := rf.2.cle,
        dropped := rf.2.nest }
    else
      let rd := drainRounds (countSome r2.1 + 1) r2.1
        { r2.2 with nest := [] } r2.2.nest
      { state := { recipeItems := s.recipeItems, recipes := rd.1,
                   commandList := rd.2.1.cmds, env := env' },
        ret := rd.2.1.effect, finished := false, used := rd.2.1.used,
        cle := rd.2.1.cle, dropped := rd.2.2 }

/-- context.rs `ActionContext::process_input` (observable part). -/
def ActionContext.processInput [DecidableEq T] [DecidableEq K]
    (s : ActionContext T K C) (input : ActionInput T K) :
    ActionContext T K C × Bool :=
  let e := processInputEv s input
  (e.state, e.ret)

/-- context.rs `ActionContext::process_inputs`. -/
def ActionContext.processInputs [DecidableEq T] [DecidableEq K]
    (s : ActionContext T K C) :
    List (ActionInput T K) → ActionContext T K C × Bool
  | [] => (s, false)
  | input :: rest =>
    let r := s.processInput input
    let r2 := r.1.processInputs rest
    (r2.1, r.2 || r2.2)


/-! Observation functions and shared lemmas about clean-up. -/

/-- The effect-end commands a contract store owes, in key order. -/
def effectEndsL : ContractStore T K C → List C :=
  List.filterMap fun p =>
    match p.2 with
    | .Effect e => some e
    | _ => none

/-- The nest-recipe reversal requests a contract store owes, in key
order: an enable contract reverses to Abort, a disable contract to
Enable. -/
def nestReversalsL (rid : Nat) : ContractStore T K C → List ActionNestRecipeCommand :=
  List.filterMap fun p =>
    match p.2 with
    | .NestRecipe n => some (.Abort rid n)
    | .NestRecipeDisable n => some (.Enable rid n)
    | _ => none

/-- Whether the store holds at least one effect contract. -/
def hasEffectL (l : ContractStore T K C) : Bool :=
  l.any fun p =>
    match p.2 with
    | .Effect _ => true
    | _ => false

/-- The effect-end commands an execution context owes. -/
def effectEnds (ctx : ActionExecutionCtx T K C) : List C :=
  effectEndsL ctx.storedContracts

/-- The nest-recipe reversal requests an execution context owes. -/
def nestReversals (ctx : ActionExecutionCtx T K C) : List ActionNestRecipeCommand :=
  nestReversalsL ctx.recipeIdx ctx.storedContracts

theorem eliminateList_eq (rid : Nat) (l : ContractStore T K C) :
    ∀ (cmds : List C) (nest : List ActionNestRecipeCommand),
      eliminateList rid l cmds nest =
        (hasEffectL l, cmds ++ effectEndsL l, nest ++ nestReversalsL rid l) := by
  induction l with
  | nil => intro cmds nest; simp [eliminateList, hasEffectL, effectEndsL, nestReversalsL]
  | cons hd tl ih =>
    intro cmds nest
    obtain ⟨k, c⟩ := hd
    cases c <;>
      simp [eliminateList, internalEliminateContract, hasEffectL, effectEndsL,
        nestReversalsL, ih]

theorem cleanUp_eq (ctx : ActionExecutionCtx T K C) (cmds : List C)
    (nest : List ActionNestRecipeCommand) :
    cleanUp ctx cmds nest =
      ⟨hasEffectL ctx.storedContracts, cmds ++ effectEnds ctx,
        nest ++ nestReversals ctx⟩ := by
  simp [cleanUp, eliminateList_eq, effectEnds, nestReversals]

/-- The effect-end commands owed by the live contexts of a slot list,
in recipe order. -/
def slotCleanupCmds : List (RecipeSlot T K C) → List C
  | [] => []
  | (_, none) :: rest => slotCleanupCmds rest
  | (_, some ctx) :: rest => effectEnds ctx ++ slotCleanupCmds rest

/-- The nest-recipe reversal requests owed by the live contexts of a
slot list, in recipe order. -/
def slotCleanupReqs : List (RecipeSlot T K C) → List ActionNestRecipeCommand
  | [] => []
  | (_, none) :: rest => slotCleanupReqs rest
  | (_, some ctx) :: rest => nestReversals ctx ++ slotCleanupReqs rest

theorem finalizeAll_mem (slots : List (RecipeSlot T K C)) :
    ∀ (acc : StageAcc C), ∀ slot ∈ (finalizeAll slots acc).1,
      slot.2 = none ∧ slot.1.isEnabled = !slot.1.isNested := by
  induction slots with
  | nil => intro acc slot h; simp [finalizeAll] at h
  | cons hd tl ih =>
    intro acc slot h
    simp only [finalizeAll] at h
    rcases List.mem_cons.mp h with h | h
    · subst h; exact ⟨rfl, rfl⟩
    · exact ih _ slot h

theorem finalizeAll_acc (slots : List (RecipeSlot T K C)) :
    ∀ acc : StageAcc C,
      (finalizeAll slots acc).2.cmds = acc.cmds ++ slotCleanupCmds slots ∧
      (finalizeAll slots acc).2.nest = acc.nest ++ slotCleanupReqs slots := by
  induction slots with
  | nil => intro acc; simp [finalizeAll, slotCleanupCmds, slotCleanupReqs]
  | cons hd tl ih =>
    intro acc
    obtain ⟨recipe, octx⟩ := hd
    cases octx with
    | none => simpa [finalizeAll, slotCleanupCmds, slotCleanupReqs] using ih acc
    | some ctx =>
      have h := ih
        { acc with
          cmds := acc.cmds ++ effectEnds ctx,
          nest := acc.nest ++ nestReversals ctx,
          effect := acc.effect || hasEffectL ctx.storedContracts,
          cle := acc.cle || hasEffectL ctx.storedContracts }
      simp only [finalizeAll, cleanUp_eq]
      simp [h.1, h.2, slotCleanupCmds, slotCleanupReqs, List.append_assoc]

end Core

section ClaimsGeneric

variable {T K C : Type}

/-- C6: matching a stored expected input against an incoming input
follows the deterministic table: exact-value inputs (cursor, focus)
give Used on equality, Abort on same-kind value mismatch, Ignore on
kind mismatch; a key-down against the same key-down gives Used,
against another key-down Ignore, against the same key-up Abort,
against another key-up Ignore, against cursor or focus Ignore; and
symmetrically for an expected key-up. -/
theorem claim_C6 [DecidableEq T] [DecidableEq K] (v1 v2 : T) (k1 k2 : K) :
    checkInputMatchInput (K := K) (.CursorCoordinate v1) (.CursorCoordinate v2)
        = (if v1 = v2 then .Used else .Abort) ∧
    checkInputMatchInput (K := K) (.CursorCoordinate v1) (.FocusCoordinate v2) = .Ignore ∧
    checkInputMatchInput (.CursorCoordinate v1) (.KeyDown k1) = .Ignore ∧
    checkInputMatchInput (.CursorCoordinate v1) (.KeyUp k1) = .Ignore ∧
    checkInputMatchInput (K := K) (.FocusCoordinate v1) (.FocusCoordinate v2)
        = (if v1 = v2 then .Used else .Abort) ∧
    checkInputMatchInput (K := K) (.FocusCoordinate v1) (.CursorCoordinate v2) = .Ignore ∧
    checkInputMatchInput (.FocusCoordinate v1) (.KeyDown k1) = .Ignore ∧
    checkInputMatchInput (.FocusCoordinate v1) (.KeyUp k1) = .Ignore ∧
    checkInputMatchInput (T := T) (.KeyDown k1) (.KeyDown k2)
        = (if k1 = k2 then .Used else .Ignore) ∧
    checkInputMatchInput (T := T) (.KeyDown k1) (.KeyUp k2)
        = (if k1 = k2 then .Abort else .Ignore) ∧
    checkInputMatchInput (.KeyDown k1) (.CursorCoordinate v1) = .Ignore ∧
    checkInputMatchInput (.KeyDown k1) (.FocusCoordinate v1) = .Ignore ∧
    checkInputMatchInput (T := T) (.KeyUp k1) (.KeyUp k2)
        = (if k1 = k2 then .Used else .Ignore) ∧
    checkInputMatchInput (T := T) (.KeyUp k1) (.KeyDown k2)
        = (if k1 = k2 then .Abort else .Ignore) ∧
    checkInputMatchInput (.KeyUp k1) (.CursorCoordinate v1) = .Ignore ∧
    checkInputMatchInput (.KeyUp k1) (.FocusCoordinate v1) = .Ignore :=
  ⟨rfl, rfl, rfl, rfl, rfl, rfl, rfl, rfl, rfl, rfl, rfl, rfl, rfl, rfl, rfl, rfl⟩

/-- C8: starting a new match panics if and only if the fresh execution
context's initial phase-2 pass (run before the current input is fed)
returns Done, i.e. the recipe completes itself without consuming any
input; a recipe whose initial pass stops at an interactive item never
triggers the failure. -/
theorem claim_C8 [DecidableEq T] [DecidableEq K]
    (input : ActionInput T K) (items : List (ActionRecipeItem T K C))
    (recipe : ActionRecipe) (recipeIdx : Nat) (cmds : List C)
    (nest : List ActionNestRecipeCommand) (env : List K) :
    (startExecutionWithInput input items recipe recipeIdx cmds nest env).panicked = true
      ↔ (processInput2 items env (phase2Fuel items)
          (freshExecutionCtx items recipe recipeIdx) cmds []).result = .Done := by
  unfold startExecutionWithInput
  cases h1 : (processInput2 items env (phase2Fuel items)
      (freshExecutionCtx items recipe recipeIdx) cmds []).result with
  | Done => simp [h1]
  | Used =>
    cases h2 : (ctxProcessInput input items env
        (processInput2 items env (phase2Fuel items)
          (freshExecutionCtx items recipe recipeIdx) cmds []).ctx
        (processInput2 items env (phase2Fuel items)
          (freshExecutionCtx items recipe recipeIdx) cmds []).cmds
        (processInput2 items env (phase2Fuel items)
          (freshExecutionCtx items recipe recipeIdx) cmds []).nest).result <;>
      simp [h1, h2]
  | Ignore => simp [h1]
  | Abort => simp [h1]

end ClaimsGeneric

section DrainLemmas

variable {T K C : Type}

theorem setEnabled_cons_zero (hd : RecipeSlot T K C) (tl : List (RecipeSlot T K C))
    (b : Bool) :
    setEnabled (hd :: tl) 0 b = ({ hd.1 with isEnabled := b }, hd.2) :: tl := by
  obtain ⟨r, octx⟩ := hd
  simp [setEnabled]

theorem setEnabled_cons_succ (hd : RecipeSlot T K C) (tl : List (RecipeSlot T K C))
    (i : Nat) (b : Bool) :
    setEnabled (hd :: tl) (i + 1) b = hd :: setEnabled tl i b := by
  unfold setEnabled
  cases h : tl[i]? with
  | none => simp [h]
  | some p =>
    obtain ⟨r, octx⟩ := p
    simp [h]

theorem setEnabled_snd (slots : List (RecipeSlot T K C)) :
    ∀ (i : Nat) (b : Bool) (j : Nat),
      ((setEnabled slots i b)[j]?).map Prod.snd = (slots[j]?).map Prod.snd := by
  induction slots with
  | nil => intro i b j; simp [setEnabled]
  | cons hd tl ih =>
    intro i b j
    cases i with
    | zero =>
      cases j with
      | zero => simp [setEnabled_cons_zero]
      | succ j' => simp [setEnabled_cons_zero]
    | succ i' =>
      cases j with
      | zero => simp [setEnabled_cons_succ]
      | succ j' => simpa [setEnabled_cons_succ] using ih i' b j'

theorem countSome_cons (hd : RecipeSlot T K C) (tl : List (RecipeSlot T K C)) :
    countSome (hd :: tl) = countSome tl + (if hd.2.isSome then 1 else 0) := by
  simp [countSome, List.countP_cons]

theorem countSome_setEnabled (slots : List (RecipeSlot T K C)) :
    ∀ (i : Nat) (b : Bool), countSome (setEnabled slots i b) = countSome slots := by
  induction slots with
  | nil => intro i b; simp [setEnabled]
  | cons hd tl ih =>
    intro i b
    cases i with
    | zero => simp [setEnabled_cons_zero, countSome_cons]
    | succ i' => simp [setEnabled_cons_succ, countSome_cons, ih]

theorem countSome_clear (slots : List (RecipeSlot T K C)) :
    ∀ (ri : Nat) (recipe : ActionRecipe) (ctx : ActionExecutionCtx T K C)
      (slot' : RecipeSlot T K C), slots[ri]? = some (recipe, some ctx) →
      slot'.2 = none →
      countSome (slots.set ri slot') + 1 = countSome slots := by
  induction slots with
  | nil => intro ri recipe ctx slot' h; simp at h
  | cons hd tl ih =>
    intro ri recipe ctx slot' h hn
    cases ri with
    | zero =>
      simp only [List.getElem?_cons_zero, Option.some.injEq] at h
      subst h
      simp [countSome_cons, hn]
    | succ ri' =>
      simp only [List.getElem?_cons_succ] at h
      have hih := ih ri' recipe ctx slot' h hn
      simp only [List.set_cons_succ, countSome_cons]
      omega

theorem applyOneReq_countSome (slots : List (RecipeSlot T K C)) (acc : StageAcc C)
    [DecidableEq T] [DecidableEq K] (req : ActionNestRecipeCommand) :
    countSome (applyOneReq slots acc req).1 ≤ countSome slots ∧
    ((applyOneReq slots acc req).2.2 ≠ [] →
      countSome (applyOneReq slots acc req).1 < countSome slots) := by
  cases req with
  | Enable p n =>
    cases h : locateNestRecipe slots p n with
    | none => simp [applyOneReq, h]
    | some ri => simp [applyOneReq, h, countSome_setEnabled]
  | Disable p n =>
    cases h : locateNestRecipe slots p n with
    | none => simp [applyOneReq, h]
    | some ri => simp [applyOneReq, h, countSome_setEnabled]
  | Abort p n =>
    cases h : locateNestRecipe slots p n with
    | none => simp [applyOneReq, h]
    | some ri =>
      cases h2 : (setEnabled slots ri false)[ri]? with
      | none => simp [applyOneReq, h, h2, countSome_setEnabled]
      | some slot =>
        obtain ⟨recipe, octx⟩ := slot
        cases octx with
        | none => simp [applyOneReq, h, h2, countSome_setEnabled]
        | some ctx =>
          have hc := countSome_clear (setEnabled slots ri false) ri recipe ctx
            (recipe, none) h2 rfl
          have he := countSome_setEnabled slots ri false
          constructor
          · simp only [applyOneReq, h, h2]
            omega
          · intro hne
            simp only [applyOneReq, h, h2]
            omega

theorem drainBatch_countSome [DecidableEq T] [DecidableEq K]
    (queue : List ActionNestRecipeCommand) :
    ∀ (slots : List (RecipeSlot T K C)) (acc : StageAcc C),
      countSome (drainBatch slots acc queue).1 ≤ countSome slots ∧
      ((drainBatch slots acc queue).2.2 ≠ [] →
        countSome (drainBatch slots acc queue).1 < countSome slots) := by
  induction queue with
  | nil => intro slots acc; simp [drainBatch]
  | cons req rest ih =>
    intro slots acc
    have h1 := applyOneReq_countSome slots acc req
    have h2 := ih (applyOneReq slots acc req).1 (applyOneReq slots acc req).2.1
    constructor
    · simp only [drainBatch]
      omega
    · intro hne
      simp only [drainBatch] at hne ⊢
      by_cases hl : (applyOneReq slots acc req).2.2 = []
      · rw [hl, List.nil_append] at hne
        have := h2.2 hne
        omega
      · have := h1.2 hl
        omega

theorem drainRounds_nil [DecidableEq T] [DecidableEq K]
    (fuel : Nat) (slots : List (RecipeSlot T K C)) (acc : StageAcc C) :
    (drainRounds fuel slots acc []).2.2 = [] := by
  cases fuel <;> rfl

theorem drainRounds_leftover [DecidableEq T] [DecidableEq K] :
    ∀ (fuel : Nat) (slots : List (RecipeSlot T K C)) (acc : StageAcc C)
      (queue : List ActionNestRecipeCommand),
      countSome slots + 1 ≤ fuel → (drainRounds fuel slots acc queue).2.2 = [] := by
  intro fuel
  induction fuel with
  | zero => intro slots acc queue h; omega
  | succ f ih =>
    intro slots acc queue h
    cases queue with
    | nil => simp [drainRounds]
    | cons req rest =>
      simp only [drainRounds]
      by_cases hq : (drainBatch slots acc (req :: rest)).2.2 = []
      · rw [hq]
        exact drainRounds_nil f _ _
      · have hlt := (drainBatch_countSome (req :: rest) slots acc).2 hq
        exact ih _ _ _ (by omega)

end DrainLemmas

section ClaimsDispatch

variable {T K C : Type}

/-- C4 (amended): on the normal exit the pending nest-recipe queue is
drained to the empty queue before the call returns — the fuel
`countSome + 1` given to the round loop provably suffices, because a
batch that generates new requests has cleaned up (and dropped) at
least one live context — so no request generated during the call,
including requests appended while cleaning up an aborted nested
recipe's context, remains pending; on the finalization short-circuit
the source returns early and the pending requests are discarded. -/
theorem claim_C4_amended [DecidableEq T] [DecidableEq K]
    (s : ActionContext T K C) (input : ActionInput T K) :
    (processInputEv s input).finished = false →
    (processInputEv s input).dropped = [] := by
  simp only [processInputEv]
  split
  · intro h; simp at h
  · split
    · intro h; simp at h
    · intro h
      exact drainRounds_leftover _ _ _ _ (Nat.le_refl _)

/-- C3: whenever any recipe finishes during a `process_input` call, the
call takes a finalization block: it returns true, every execution
context is dropped, `is_enabled` is reset to the negation of
`is_nested` for every recipe; and the finalization block appends to
the command list exactly the effect-end commands owed by the contexts
live at that point (in recipe order), and queues exactly their
nest-recipe reversal requests. -/
theorem claim_C3 [DecidableEq T] [DecidableEq K]
    (s : ActionContext T K C) (input : ActionInput T K) :
    ((processInputEv s input).finished = true →
      (processInputEv s input).ret = true ∧
      ∀ slot ∈ (processInputEv s input).state.recipes,
        slot.2 = none ∧ slot.1.isEnabled = !slot.1.isNested) ∧
    ∀ (slots : List (RecipeSlot T K C)) (acc : StageAcc C),
      (finalizeAll slots acc).2.cmds = acc.cmds ++ slotCleanupCmds slots ∧
      (finalizeAll slots acc).2.nest = acc.nest ++ slotCleanupReqs slots := by
  constructor
  · simp only [processInputEv]
    split
    · intro _
      exact ⟨rfl, fun slot hs => finalizeAll_mem _ _ slot hs⟩
    · split
      · intro _
        exact ⟨rfl, fun slot hs => finalizeAll_mem _ _ slot hs⟩
      · intro h; simp at h
  · exact fun slots acc => finalizeAll_acc slots acc

/-- C9 (amended): executing an `EliminateItem` whose target holds no
registered contract is silently ignored: `eliminate` reports that no
command was emitted and leaves the store, the command list and the
request list unchanged (the source has no failure path here). -/
theorem claim_C9_amended (rid target : Nat) (store : ContractStore T K C)
    (cmds : List C) (nest : List ActionNestRecipeCommand)
    (h : containsContract target store = false) :
    eliminate rid target store cmds nest = (false, store, cmds, nest) := by
  have hrm : removeContract target store = (none, store) := by
    induction store with
    | nil => rfl
    | cons hd tl ih =>
      simp only [containsContract, List.any_cons, Bool.or_eq_false_iff] at h
      have hne : target ≠ hd.1 := by
        intro he
        rw [he] at h
        simp at h
      have := ih (by simp [containsContract, h.2])
      simp [removeContract, hne, this]
  simp [eliminate, hrm]

/-- C10: draining a Disable nest-recipe request only clears the
resolved nested recipe's `is_enabled` flag: every slot's execution
context is left untouched, nothing is emitted and no new request is
generated; an Abort request additionally drops the resolved recipe's
in-flight context, emitting its owed effect-end commands and queueing
its nest-recipe reversal requests. -/
theorem claim_C10 [DecidableEq T] [DecidableEq K]
    (slots : List (RecipeSlot T K C)) (acc : StageAcc C) (p n ri : Nat)
    (h : locateNestRecipe slots p n = some ri) :
    ((applyOneReq slots acc (.Disable p n)).1 = setEnabled slots ri false ∧
      (applyOneReq slots acc (.Disable p n)).2.1 = acc ∧
      (applyOneReq slots acc (.Disable p n)).2.2 = [] ∧
      ∀ j : Nat, (((applyOneReq slots acc (.Disable p n)).1[j]?).map Prod.snd) =
        (slots[j]?).map Prod.snd) ∧
    ∀ (recipe : ActionRecipe) (ctx : ActionExecutionCtx T K C),
      (setEnabled slots ri false)[ri]? = some (recipe, some ctx) →
      (applyOneReq slots acc (.Abort p n)).1 =
          (setEnabled slots ri false).set ri (recipe, none) ∧
      (applyOneReq slots acc (.Abort p n)).2.1.cmds = acc.cmds ++ effectEnds ctx ∧
      (applyOneReq slots acc (.Abort p n)).2.2 = nestReversals ctx := by
  refine ⟨⟨?_, ?_, ?_, ?_⟩, ?_⟩
  · simp [applyOneReq, h]
  · simp [applyOneReq, h]
  · simp [applyOneReq, h]
  · intro j
    simp only [applyOneReq, h]
    exact setEnabled_snd slots ri false j
  · intro recipe ctx h2
    refine ⟨?_, ?_, ?_⟩ <;> simp [applyOneReq, h, h2, cleanUp_eq]

end ClaimsDispatch

section EffectFlagLemmas

variable {T K C : Type}

/-- The relation the instrumentation maintains with the source's
`some_effect_occurred` flag: it is set exactly when some context
consumed the input or some clean-up emitted a command. -/
def accInvariant (acc : StageAcc C) : Prop :=
  acc.effect = (acc.used || acc.cle)

theorem stage1One_inv [DecidableEq T] [DecidableEq K]
    (input : ActionInput T K) (items : List (ActionRecipeItem T K C))
    (env : List K) (slot : RecipeSlot T K C) (acc : StageAcc C)
    (h : accInvariant acc) :
    accInvariant (stage1One input items env slot acc).2 := by
  unfold accInvariant at h ⊢
  unfold stage1One
  cases slot.2 with
  | none => exact h
  | some ctx =>
    cases hr : (ctxProcessInput input items env ctx acc.cmds acc.nest).result <;>
      simp [hr, h, Bool.or_assoc]

theorem stage1Go_inv [DecidableEq T] [DecidableEq K]
    (input : ActionInput T K) (items : List (ActionRecipeItem T K C))
    (env : List K) (slots : List (RecipeSlot T K C)) :
    ∀ acc : StageAcc C, accInvariant acc →
      accInvariant (stage1Go input items env slots acc).2 := by
  induction slots with
  | nil => intro acc h; exact h
  | cons hd tl ih =>
    intro acc h
    exact ih _ (stage1One_inv input items env hd acc h)

theorem finalizeAll_inv (slots : List (RecipeSlot T K C)) :
    ∀ acc : StageAcc C, accInvariant acc →
      accInvariant (finalizeAll slots acc).2 := by
  induction slots with
  | nil => intro acc h; exact h
  | cons hd tl ih =>
    intro acc h
    unfold accInvariant at h
    cases hc : hd.2 with
    | none =>
      apply ih
      simpa [finalizeAll, hc, accInvariant] using h
    | some ctx =>
      apply ih
      simp [accInvariant, hc, h, Bool.or_assoc]

theorem stage4Go_inv [DecidableEq T] [DecidableEq K]
    (input : ActionInput T K) (items : List (ActionRecipeItem T K C))
    (env : List K) (slots : List (RecipeSlot T K C)) :
    ∀ (i : Nat) (acc : StageAcc C), accInvariant acc →
      accInvariant (stage4Go input items env i slots acc).2 := by
  induction slots with
  | nil => intro i acc h; exact h
  | cons hd tl ih =>
    intro i acc h
    unfold accInvariant at h
    simp only [stage4Go]
    split
    · exact ih _ _ h
    · cases hr : (startExecutionWithInput input items hd.1 i acc.cmds acc.nest env).result
      · simp only [hr]
        simpa [accInvariant] using h
      · simp only [hr]
        apply ih
        simp [accInvariant]
      · simp only [hr]
        apply ih
        simpa [accInvariant] using h
      · simp only [hr]
        apply ih
        simpa [accInvariant] using h

theorem applyOneReq_inv [DecidableEq T] [DecidableEq K]
    (slots : List (RecipeSlot T K C)) (acc : StageAcc C)
    (req : ActionNestRecipeCommand) (h : accInvariant acc) :
    accInvariant (applyOneReq slots acc req).2.1 := by
  unfold accInvariant at h ⊢
  cases req with
  | Enable p n => cases hl : locateNestRecipe slots p n <;> simp [applyOneReq, hl, h]
  | Disable p n => cases hl : locateNestRecipe slots p n <;> simp [applyOneReq, hl, h]
  | Abort p n =>
    cases hl : locateNestRecipe slots p n with
    | none => simp [applyOneReq, hl, h]
    | some ri =>
      cases h2 : (setEnabled slots ri false)[ri]? with
      | none => simp [applyOneReq, hl, h2, h]
      | some slot =>
        obtain ⟨recipe, octx⟩ := slot
        cases octx with
        | none => simp [applyOneReq, hl, h2, h]
        | some ctx => simp [applyOneReq, hl, h2, h, Bool.or_assoc]

theorem drainBatch_inv [DecidableEq T] [DecidableEq K]
    (queue : List ActionNestRecipeCommand) :
    ∀ (slots : List (RecipeSlot T K C)) (acc : StageAcc C), accInvariant acc →
      accInvariant (drainBatch slots acc queue).2.1 := by
  induction queue with
  | nil => intro slots acc h; exact h
  | cons req rest ih =>
    intro slots acc h
    exact ih _ _ (applyOneReq_inv slots acc req h)

theorem drainRounds_inv [DecidableEq T] [DecidableEq K] :
    ∀ (fuel : Nat) (slots : List (RecipeSlot T K C)) (acc : StageAcc C)
      (queue : List ActionNestRecipeCommand), accInvariant acc →
      accInvariant (drainRounds fuel slots acc queue).2.1 := by
  intro fuel
  induction fuel with
  | zero => intro slots acc queue h; exact h
  | succ f ih =>
    intro slots acc queue h
    cases queue with
    | nil => exact h
    | cons req rest =>
      simp only [drainRounds]
      exact ih _ _ _ (drainBatch_inv (req :: rest) slots acc h)

/-- C2 (amended): `process_input` returns true exactly when some recipe
finished during the call, or some context (existing or freshly
started) consumed the input, or some clean-up run during the call
emitted a command.  Command emission alone is neither necessary (a
match can advance without emitting) nor sufficient (commands emitted
on a path that then aborted, or during a discarded start attempt, do
not set the flag). -/
theorem claim_C2_amended [DecidableEq T] [DecidableEq K]
    (s : ActionContext T K C) (input : ActionInput T K) :
    (processInputEv s input).ret =
      ((processInputEv s input).finished || (processInputEv s input).used ||
        (processInputEv s input).cle) := by
  have h0 : accInvariant
      ({ cmds := s.commandList, nest := [], finished := false, effect := false,
         used := false, cle := false } : StageAcc C) := rfl
  simp only [processInputEv]
  split
  · simp
  · split
    · simp
    · simp only [Bool.false_or]
      refine drainRounds_inv _ _ _ _ ?_
      refine stage4Go_inv _ _ _ _ _ _ ?_
      refine stage1Go_inv _ _ _ _ _ ?_
      exact h0

end EffectFlagLemmas

section CtxCreationLemmas

variable {T K C : Type}

theorem stage1Go_none [DecidableEq T] [DecidableEq K]
    (input : ActionInput T K) (items : List (ActionRecipeItem T K C))
    (env : List K) (slots : List (RecipeSlot T K C)) :
    ∀ (acc : StageAcc C) (r : Nat) (recipe : ActionRecipe),
      slots[r]? = some (recipe, none) →
      (stage1Go input items env slots acc).1[r]? = some (recipe, none) := by
  induction slots with
  | nil => intro acc r recipe h; simp at h
  | cons hd tl ih =>
    intro acc r recipe h
    cases r with
    | zero =>
      simp only [List.getElem?_cons_zero, Option.some.injEq] at h
      subst h
      simp [stage1Go, stage1One]
    | succ r' =>
      simp only [List.getElem?_cons_succ] at h
      simpa [stage1Go] using ih _ r' recipe h

theorem stage4Go_disabled [DecidableEq T] [DecidableEq K]
    (input : ActionInput T K) (items : List (ActionRecipeItem T K C))
    (env : List K) (slots : List (RecipeSlot T K C)) :
    ∀ (i : Nat) (acc : StageAcc C) (r : Nat) (recipe : ActionRecipe),
      slots[r]? = some (recipe, none) → recipe.isEnabled = false →
      (stage4Go input items env i slots acc).1[r]? = some (recipe, none) := by
  induction slots with
  | nil => intro i acc r recipe h he; simp at h
  | cons hd tl ih =>
    intro i acc r recipe h he
    cases r with
    | zero =>
      simp only [List.getElem?_cons_zero, Option.some.injEq] at h
      subst h
      simp [stage4Go, he]
    | succ r' =>
      simp only [List.getElem?_cons_succ] at h
      simp only [stage4Go]
      split
      · simpa using ih _ _ r' recipe h he
      · cases hr : (startExecutionWithInput input items hd.1 i acc.cmds acc.nest env).result
        · simp only [hr]
          simpa using h
        · simp only [hr]
          simpa using ih _ _ r' recipe h he
        · simp only [hr]
          simpa using ih _ _ r' recipe h he
        · simp only [hr]
          simpa using ih _ _ r' recipe h he

theorem set_none_snd (slots : List (RecipeSlot T K C)) :
    ∀ (i : Nat) (slot' : RecipeSlot T K C) (r : Nat), slot'.2 = none →
      ((slots[r]?).map Prod.snd) = some none →
      (((slots.set i slot')[r]?).map Prod.snd) = some none := by
  induction slots with
  | nil => intro i slot' r hn h; simp at h
  | cons hd tl ih =>
    intro i slot' r hn h
    cases i with
    | zero =>
      cases r with
      | zero => simp [hn]
      | succ r' => simpa using h
    | succ i' =>
      cases r with
      | zero => simpa using h
      | succ r' =>
        simp only [List.getElem?_cons_succ] at h
        simpa [List.set_cons_succ] using ih i' slot' r' hn h

theorem setEnabled_snd_none (slots : List (RecipeSlot T K C)) (i : Nat) (b : Bool)
    (r : Nat) (h : ((slots[r]?).map Prod.snd) = some none) :
    (((setEnabled slots i b)[r]?).map Prod.snd) = some none := by
  rw [setEnabled_snd slots i b r]
  exact h

theorem applyOneReq_snd_none [DecidableEq T] [DecidableEq K]
    (slots : List (RecipeSlot T K C)) (acc : StageAcc C)
    (req : ActionNestRecipeCommand) (r : Nat)
    (h : ((slots[r]?).map Prod.snd) = some none) :
    (((applyOneReq slots acc req).1[r]?).map Prod.snd) = some none := by
  cases req with
  | Enable p n =>
    cases hl : locateNestRecipe slots p n with
    | none => simpa [applyOneReq, hl] using h
    | some ri =>
      simp only [applyOneReq, hl]
      exact setEnabled_snd_none slots ri true r h
  | Disable p n =>
    cases hl : locateNestRecipe slots p n with
    | none => simpa [applyOneReq, hl] using h
    | some ri =>
      simp only [applyOneReq, hl]
      exact setEnabled_snd_none slots ri false r h
  | Abort p n =>
    cases hl : locateNestRecipe slots p n with
    | none => simpa [applyOneReq, hl] using h
    | some ri =>
      have h1 := setEnabled_snd_none slots ri false r h
      cases h2 : (setEnabled slots ri false)[ri]? with
      | none => simpa [applyOneReq, hl, h2] using h1
      | some slot =>
        obtain ⟨recipe, octx⟩ := slot
        cases octx with
        | none => simpa [applyOneReq, hl, h2] using h1
        | some ctx =>
          simp only [applyOneReq, hl, h2]
          exact set_none_snd _ ri (recipe, none) r rfl h1

theorem drainBatch_snd_none [DecidableEq T] [DecidableEq K]
    (queue : List ActionNestRecipeCommand) :
    ∀ (slots : List (RecipeSlot T K C)) (acc : StageAcc C) (r : Nat),
      ((slots[r]?).map Prod.snd) = some none →
      (((drainBatch slots acc queue).1[r]?).map Prod.snd) = some none := by
  induction queue with
  | nil => intro slots acc r h; exact h
  | cons req rest ih =>
    intro slots acc r h
    exact ih _ _ r (applyOneReq_snd_none slots acc req r h)

theorem drainRounds_snd_none [DecidableEq T] [DecidableEq K] :
    ∀ (fuel : Nat) (slots : List (RecipeSlot T K C)) (acc : StageAcc C)
      (queue : List ActionNestRecipeCommand) (r : Nat),
      ((slots[r]?).map Prod.snd) = some none →
      (((drainRounds fuel slots acc queue).1[r]?).map Prod.snd) = some none := by
  intro fuel
  induction fuel with
  | zero => intro slots acc queue r h; exact h
  | succ f ih =>
    intro slots acc queue r h
    cases queue with
    | nil => exact h
    | cons req rest =>
      simp only [drainRounds]
      exact ih _ _ _ r (drainBatch_snd_none (req :: rest) _ _ r h)

/-- C5 (amended): a recipe never holds two simultaneous execution
contexts (each slot holds at most one, by the shape of the recipe
vector), and a new context is only created for a recipe that is
enabled when the call starts: on a normal (non-finalizing) exit, a
recipe that was disabled and context-free on entry is still
context-free on return.  The full claimed subset invariant fails: a
Disable nest-recipe request drained at the end of a call clears
`is_enabled` but leaves the recipe's in-flight context active (see the
counterexample). -/
theorem claim_C5_amended [DecidableEq T] [DecidableEq K]
    (s : ActionContext T K C) (input : ActionInput T K) (r : Nat)
    (recipe : ActionRecipe) :
    (processInputEv s input).finished = false →
    s.recipes[r]? = some (recipe, none) →
    recipe.isEnabled = false →
    (((processInputEv s input).state.recipes[r]?).map Prod.snd) = some none := by
  simp only [processInputEv]
  split
  · intro h0
    simp at h0
  · split
    · intro h0
      simp at h0
    · intro _ h1 h2
      have ha := stage1Go_none input s.recipeItems (updateWithInput s.env input)
        s.recipes
        { cmds := s.commandList, nest := [], finished := false, effect := false,
          used := false, cle := false } r recipe h1
      have hb := stage4Go_disabled input s.recipeItems (updateWithInput s.env input)
        (stage1Go input s.recipeItems (updateWithInput s.env input) s.recipes
          { cmds := s.commandList, nest := [], finished := false, effect := false,
            used := false, cle := false }).1 0
        (stage1Go input s.recipeItems (updateWithInput s.env input) s.recipes
          { cmds := s.commandList, nest := [], finished := false, effect := false,
            used := false, cle := false }).2 r recipe ha h2
      refine drainRounds_snd_none _ _ _ _ r ?_
      rw [hb]
      rfl

end CtxCreationLemmas

section EnvLemmas

variable {T K C : Type}

theorem mem_envInsert [DecidableEq K] (e : List K) (k k' : K) :
    k' ∈ envInsert e k ↔ k' = k ∨ k' ∈ e := by
  by_cases hk : k ∈ e
  · simp only [envInsert, if_pos hk]
    exact ⟨fun h => Or.inr h, fun h => h.elim (fun he => he ▸ hk) id⟩
  · simp [envInsert, hk, List.mem_cons]

theorem nodup_envInsert [DecidableEq K] (e : List K) (k : K) (h : e.Nodup) :
    (envInsert e k).Nodup := by
  by_cases hk : k ∈ e
  · simpa [envInsert, hk] using h
  · simp [envInsert, hk, List.nodup_cons, h]

theorem mem_envRemove_of_mem [DecidableEq K] :
    ∀ (e : List K) (k k' : K), k' ∈ envRemove e k → k' ∈ e := by
  intro e
  induction e with
  | nil => intro k k' h; simp [envRemove] at h
  | cons x rest ih =>
    intro k k' h
    by_cases hx : x = k
    · rw [envRemove, if_pos hx] at h
      exact List.mem_cons_of_mem _ h
    · rw [envRemove, if_neg hx] at h
      rcases List.mem_cons.mp h with h | h
      · exact h ▸ List.mem_cons_self _ _
      · exact List.mem_cons_of_mem _ (ih k k' h)

theorem not_mem_envRemove_self [DecidableEq K] :
    ∀ (e : List K), e.Nodup → ∀ k, k ∉ envRemove e k := by
  intro e
  induction e with
  | nil => intro _ k h; simp [envRemove] at h
  | cons x rest ih =>
    intro hn k h
    rw [List.nodup_cons] at hn
    by_cases hx : x = k
    · rw [envRemove, if_pos hx] at h
      exact hn.1 (hx ▸ h)
    · rw [envRemove, if_neg hx] at h
      rcases List.mem_cons.mp h with h | h
      · exact hx h.symm
      · exact ih hn.2 k h

theorem mem_envRemove_ne [DecidableEq K] :
    ∀ (e : List K) (k k' : K), k' ≠ k → (k' ∈ envRemove e k ↔ k' ∈ e) := by
  intro e
  induction e with
  | nil => intro k k' _; simp [envRemove]
  | cons x rest ih =>
    intro k k' hne
    by_cases hx : x = k
    · rw [envRemove, if_pos hx]
      subst hx
      simp only [List.mem_cons]
      exact ⟨fun h => Or.inr h, fun h => h.elim (fun he => absurd he hne) id⟩
    · rw [envRemove, if_neg hx]
      simp only [List.mem_cons]
      rw [ih k k' hne]

theorem nodup_envRemove [DecidableEq K] :
    ∀ (e : List K), e.Nodup → ∀ k, (envRemove e k).Nodup := by
  intro e
  induction e with
  | nil => intro _ k; simp [envRemove]
  | cons x rest ih =>
    intro hn k
    rw [List.nodup_cons] at hn
    by_cases hx : x = k
    · rw [envRemove, if_pos hx]
      exact hn.2
    · rw [envRemove, if_neg hx, List.nodup_cons]
      exact ⟨fun h => hn.1 (mem_envRemove_of_mem rest k x h), ih hn.2 k⟩

theorem nodup_updateWithInput [DecidableEq K] (e : List K) (he : e.Nodup)
    (i : ActionInput T K) : (updateWithInput e i).Nodup := by
  cases i with
  | KeyDown k => exact nodup_envInsert e k he
  | KeyUp k => exact nodup_envRemove e he k
  | CursorCoordinate t => exact he
  | FocusCoordinate t => exact he

theorem isKeyPressed_updateWithInput [DecidableEq K] (e : List K) (he : e.Nodup)
    (i : ActionInput T K) (k : K) :
    isKeyPressed (updateWithInput e i) k =
      (match i with
        | .KeyDown k2 => if k2 = k then true else isKeyPressed e k
        | .KeyUp k2 => if k2 = k then false else isKeyPressed e k
        | _ => isKeyPressed e k) := by
  cases i with
  | KeyDown k2 =>
    by_cases hk : k2 = k
    · subst hk
      simp [updateWithInput, isKeyPressed, mem_envInsert]
    · have hk' : ¬k = k2 := fun h => hk h.symm
      simp [updateWithInput, isKeyPressed, mem_envInsert, hk, hk']
  | KeyUp k2 =>
    by_cases hk : k2 = k
    · subst hk
      simp only [updateWithInput, isKeyPressed]
      simp [not_mem_envRemove_self e he k2]
    · have hk' : k ≠ k2 := fun h => hk h.symm
      simp [updateWithInput, isKeyPressed, hk, mem_envRemove_ne e k2 k hk']
  | CursorCoordinate t => rfl
  | FocusCoordinate t => rfl

/-- Whether the most recent key event for `k` in the sequence is a
key-down: the reference for what the tracker's set actually computes. -/
def lastKeyIsDown [DecidableEq K] (k : K) (inputs : List (ActionInput T K)) : Bool :=
  inputs.foldl
    (fun b i =>
      match i with
      | .KeyDown k2 => if k2 = k then true else b
      | .KeyUp k2 => if k2 = k then false else b
      | _ => b) false

theorem isKeyPressed_foldl [DecidableEq K] :
    ∀ (inputs : List (ActionInput T K)) (e : List K), e.Nodup → ∀ k,
      isKeyPressed (inputs.foldl updateWithInput e) k =
        inputs.foldl
          (fun b i =>
            match i with
            | .KeyDown k2 => if k2 = k then true else b
            | .KeyUp k2 => if k2 = k then false else b
            | _ => b) (isKeyPressed e k) := by
  intro inputs
  induction inputs with
  | nil => intro e _ k; rfl
  | cons i rest ih =>
    intro e he k
    simp only [List.foldl_cons]
    rw [ih (updateWithInput e i) (nodup_updateWithInput e he i) k,
      isKeyPressed_updateWithInput e he i k]

theorem processInputEv_env [DecidableEq T] [DecidableEq K]
    (s : ActionContext T K C) (input : ActionInput T K) :
    (processInputEv s input).state.env = updateWithInput s.env input := by
  simp only [processInputEv]
  split
  · rfl
  · split <;> rfl

theorem processInputs_env [DecidableEq T] [DecidableEq K] :
    ∀ (inputs : List (ActionInput T K)) (s : ActionContext T K C),
      ((ActionContext.processInputs s inputs).1).env =
        inputs.foldl updateWithInput s.env := by
  intro inputs
  induction inputs with
  | nil => intro s; rfl
  | cons i rest ih =>
    intro s
    simp only [ActionContext.processInputs, List.foldl_cons]
    rw [ih (s.processInput i).1]
    congr 1
    exact processInputEv_env s i

/-- Modelled from the claim's wording: the multiset reading of the
held-keys invariant, under which a key counts as held when it has
strictly more KeyDown than KeyUp occurrences so far. -/
def specHeldByMultiset [DecidableEq T] [DecidableEq K]
    (inputs : List (ActionInput T K)) (k : K) : Bool :=
  (inputs.countP fun i => decide (i = ActionInput.KeyUp k)) <
    (inputs.countP fun i => decide (i = ActionInput.KeyDown k))

/-- C7 (amended): the tracker is updated with the current input before
any matching runs — the state's environment after a call is exactly
`update_with_input` of the previous environment, in every branch — and
after any input sequence fed to a fresh recognizer, `is_key_pressed k`
is true exactly when the most recent KeyDown/KeyUp event for `k` is a
KeyDown (insert-on-down, remove-on-up set semantics).  The multiset
reading of the claim fails: repeated KeyDown of a held key collapses
into one set element (see the counterexample). -/
theorem claim_C7_amended [DecidableEq T] [DecidableEq K] :
    (∀ (s : ActionContext T K C) (input : ActionInput T K),
      (processInputEv s input).state.env = updateWithInput s.env input) ∧
    (∀ (s : ActionContext T K C) (inputs : List (ActionInput T K)),
      ((ActionContext.processInputs s inputs).1).env =
        inputs.foldl updateWithInput s.env) ∧
    (∀ (items : List (ActionRecipeItem T K C)) (recipes : List (RecipeSlot T K C))
      (cmds : List C) (inputs : List (ActionInput T K)) (k : K),
      isKeyPressed ((ActionContext.processInputs ⟨items, recipes, cmds, []⟩ inputs).1).env k
        = lastKeyIsDown k inputs) := by
  refine ⟨processInputEv_env, fun s inputs => processInputs_env inputs s, ?_⟩
  intro items recipes cmds inputs k
  rw [processInputs_env inputs ⟨items, recipes, cmds, []⟩]
  rw [isKeyPressed_foldl inputs [] List.nodup_nil k]
  rfl

end EnvLemmas

/-! Concrete scenarios, instantiated at Target = KeyKind = Command = Nat,
used as counterexamples, witnesses and code-bug evaluations. -/

/-- Item store of the effect-leak scenario: a recipe whose phase-2
start emits an effect-start before the first interactive item. -/
def c1items : List (ActionRecipeItem Nat Nat Nat) :=
  [.StartEffect 10 11, .StartInput (.KeyDown 0), .EliminateItem 1,
   .Sequential [0, 1, 2]]

/-- Fresh recognizer for the effect-leak scenario. -/
def c1s : ActionContext Nat Nat Nat :=
  ⟨c1items, [(⟨3, false, true, []⟩, none)], [], []⟩

/-- C1: the bracket law fails on the start-attempt discard path.  On
input KeyDown 1 (which the recipe ignores), the new-match attempt runs
the initial phase-2 pass, pushes the effect-start command 10 onto the
shared command list, then sees Ignore from the current input and is
discarded without clean-up: the call returns false, leaves no
execution context (so no Effect contract survives that could ever emit
the end command 11), and a second identical input leaks a second
effect-start. -/
theorem claim_C1 :
    (processInputEv c1s (.KeyDown 1)).state.commandList = [10] ∧
    (processInputEv c1s (.KeyDown 1)).ret = false ∧
    ((processInputEv c1s (.KeyDown 1)).state.recipes.all fun slot =>
      slot.2.isNone) = true ∧
    (processInputEv (processInputEv c1s (.KeyDown 1)).state
      (.KeyDown 1)).state.commandList = [10, 10] := by
  decide

/-- Item store for the advance-without-commands scenario. -/
def c2items : List (ActionRecipeItem Nat Nat Nat) :=
  [.StartInput (.KeyDown 0), .StartInput (.KeyDown 1), .DoCommand 5,
   .EliminateItem 0, .EliminateItem 1, .Sequential [0, 1, 2, 3, 4]]

/-- Fresh recognizer for the advance-without-commands scenario. -/
def c2s : ActionContext Nat Nat Nat :=
  ⟨c2items, [(⟨5, false, true, []⟩, none)], [], []⟩

/-- C2 counterexample: on KeyDown 0 the recipe starts a match and the
call returns true, yet the command list is left unchanged — so the
return value is not `true iff a command was emitted`.  (The converse
direction also fails: in the C1 scenario command 10 is emitted while
the call returns false.) -/
theorem claim_C2_counterexample :
    (processInputEv c2s (.KeyDown 0)).ret = true ∧
    (processInputEv c2s (.KeyDown 0)).state.commandList = c2s.commandList ∧
    (processInputEv c1s (.KeyDown 1)).ret = false ∧
    (processInputEv c1s (.KeyDown 1)).state.commandList = [10] := by
  decide

/-- Item store of the nested-recipe scenario: nested recipe N
(root 2), parent P (root 8) that enables then disables N, and a
one-shot recipe R (root 11). -/
def c5items : List (ActionRecipeItem Nat Nat Nat) :=
  [.StartInput (.KeyDown 20), .StartInput (.KeyDown 21), .Sequential [0, 1],
   .StartInput (.KeyDown 10), .StartNestRecipe 0, .StartInput (.KeyDown 11),
   .DisableNestRecipe 0, .StartInput (.KeyDown 12), .Sequential [3, 4, 5, 6, 7],
   .StartInput (.KeyDown 30), .EliminateItem 9, .Sequential [9, 10]]

/-- Fresh recognizer for the nested-recipe scenario: slot 0 is the
nested recipe N (disabled), slot 1 the parent P, slot 2 the recipe R. -/
def c5s : ActionContext Nat Nat Nat :=
  ⟨c5items,
   [(⟨2, true, false, []⟩, none), (⟨8, false, true, [0]⟩, none),
    (⟨11, false, true, []⟩, none)], [], []⟩

/-- C5 counterexample: after KeyDown 10 (P starts and enables N),
KeyDown 20 (N starts matching) and KeyDown 11 (P advances through its
DisableNestRecipe item, and the drained Disable request clears N's
flag), the recognizer rests between calls with slot 0 disabled yet
still holding an active execution context — the active set is not a
subset of the enabled set. -/
theorem claim_C5_counterexample :
    ((c5s.processInputs [.KeyDown 10, .KeyDown 20, .KeyDown 11]).1.recipes.map
      fun slot => (slot.1.isEnabled, slot.2.isSome)) =
      [(false, true), (true, true), (true, false)] := by
  decide

/-- The nested-recipe scenario after the three inputs of the C5
counterexample: P's context holds a NestRecipe and a NestRecipeDisable
contract, and R is still fresh. -/
def c4s3 : ActionContext Nat Nat Nat :=
  (c5s.processInputs [.KeyDown 10, .KeyDown 20, .KeyDown 11]).1

/-- C4 counterexample: on KeyDown 30 recipe R finishes, the call takes
the finalization short-circuit, and the reversal requests queued while
cleaning up P's context (Abort then Enable for nested recipe 0, in
contract-key order) are still pending when the call returns — they are
discarded, not drained: nested recipe 0 ends disabled although
draining the pending Enable would have re-enabled it. -/
theorem claim_C4_counterexample :
    (processInputEv c4s3 (.KeyDown 30)).finished = true ∧
    (processInputEv c4s3 (.KeyDown 30)).dropped = [.Abort 1 0, .Enable 1 0] ∧
    ((processInputEv c4s3 (.KeyDown 30)).state.recipes.map fun slot =>
      slot.1.isEnabled) = [false, true, true] := by
  decide

/-- Item store for the unregistered-eliminate scenario: item 1
eliminates target 99, which never registers any contract. -/
def c9items : List (ActionRecipeItem Nat Nat Nat) :=
  [.StartInput (.KeyDown 0), .EliminateItem 99, .DoCommand 7, .EliminateItem 0,
   .Sequential [0, 1, 2, 3]]

/-- Fresh recognizer for the unregistered-eliminate scenario. -/
def c9s : ActionContext Nat Nat Nat :=
  ⟨c9items, [(⟨4, false, true, []⟩, none)], [], []⟩

/-- C9 counterexample: the recipe containing an EliminateItem whose
target never registered a contract is built and executed to normal
completion on its first use — the call finishes the recipe, emits its
command 7 and returns true, with no failure surfaced anywhere. -/
theorem claim_C9_counterexample :
    (processInputEv c9s (.KeyDown 0)).state.commandList = [7] ∧
    (processInputEv c9s (.KeyDown 0)).finished = true ∧
    (processInputEv c9s (.KeyDown 0)).ret = true := by
  decide

/-- C7 counterexample: after KeyDown 0, KeyDown 0, KeyUp 0 the tracker
reports the key released, while the multiset of KeyDown 0 minus
KeyUp 0 events still holds one occurrence — `is_key_pressed` is set-
valued, not multiset-consistent. -/
theorem claim_C7_counterexample :
    isKeyPressed
      ((ActionContext.processInputs (⟨[], [], [], []⟩ : ActionContext Nat Nat Nat)
        [.KeyDown 0, .KeyDown 0, .KeyUp 0]).1).env 0 = false ∧
    specHeldByMultiset
      ([.KeyDown 0, .KeyDown 0, .KeyUp 0] : List (ActionInput Nat Nat))
      (0 : Nat) = true := by
  decide

/-- Witness for C3 at a concrete finishing run. -/
theorem claim_C3_witness : (processInputEv c9s (.KeyDown 0)).ret = true :=
  ((claim_C3 c9s (.KeyDown 0)).1 (by decide)).1

/-- Witness for C4 (amended) at a concrete normal exit. -/
theorem claim_C4_witness : (processInputEv c2s (.KeyDown 0)).dropped = [] :=
  claim_C4_amended c2s (.KeyDown 0) (by decide)

/-- Witness for C5 (amended): the disabled nested recipe of the
nested-recipe scenario gains no context from an unrelated input. -/
theorem claim_C5_witness :
    (((processInputEv c5s (.KeyDown 20)).state.recipes[0]?).map Prod.snd) =
      some none :=
  claim_C5_amended c5s (.KeyDown 20) 0 ⟨2, true, false, []⟩ (by decide)
    (by decide) (by decide)

/-- Witness for C9 (amended) on the empty contract store. -/
theorem claim_C9_witness :
    eliminate 0 5 ([] : ContractStore Nat Nat Nat) [] [] = (false, [], [], []) :=
  claim_C9_amended 0 5 [] [] [] (by decide)

/-- A nested recipe's in-flight context holding an effect contract,
for the C10 witness. -/
def c10ctx : ActionExecutionCtx Nat Nat Nat :=
  ⟨0, [(2, .Sequential (some 0))], [(1, .Effect 42)]⟩

/-- Recipe vector for the C10 witness: slot 0 is a nested recipe in
flight, slot 1 its parent. -/
def c10slots : List (RecipeSlot Nat Nat Nat) :=
  [(⟨2, true, false, []⟩, some c10ctx), (⟨8, false, true, [0]⟩, none)]

/-- Empty accumulator for the C10 witness. -/
def c10acc : StageAcc Nat := ⟨[], [], false, false, false, false⟩

/-- Witness for C10: applying an Abort request against the concrete
in-flight nested context emits exactly its owed effect-end. -/
theorem claim_C10_witness :
    (applyOneReq c10slots c10acc (ActionNestRecipeCommand.Abort 1 0)).2.1.cmds =
      c10acc.cmds ++ effectEnds c10ctx :=
  ((claim_C10 c10slots c10acc 1 0 0 (by decide)).2 ⟨2, true, false, []⟩ c10ctx
    (by decide)).2.1

end Concerto
